import Mathlib

/-!
Shallow embedding of the RE/flex `AbstractMatcher` streaming-buffer core
(`absmatcher.h`) and proofs about it.

The C++ class holds one sliding buffer `buf_` of capacity `max_`, occupied on
`[0, end_)`, with positions `txt_` (match start, kept here as the offset
`txt_ - buf_`), `len_`, `cur_`, `pos_`, `ind_`, the position tracker
`lno_`/`cno_`/`num_`, the character caches `got_`/`chr_` (ints, since they
also hold the sentinels UNK = 256, BOB = 257 and EOF = -1), the flags
`eof_`/`mat_`, the block size `blk_`, the parsed options `opt_` and the byte
source `in`.  Buffer memory is modelled as a total function `Nat → Nat`
(bytes), the remaining source as a list of bytes.  All `size_t` arithmetic in
the source runs on well-formed states (`txt_ ≤ end_ ≤ max_`, `txt_ ≤ cur_`),
where C `size_t` subtraction agrees with truncated `Nat` subtraction.
-/

/-- Sentinel for an unknown meta-char, `Const::UNK` in the source. -/
def UNK : Int := 256

/-- Sentinel for begin of buffer, `Const::BOB` in the source. -/
def BOB : Int := 257

/-- Buffer growth quantum, `Const::BLOCK` in the source. -/
def BLOCK : Nat := 4096

/-- Match discipline `Const::MATCH` (match the entire input). -/
def mMATCH : Nat := 3

/-- Options parsed by `AbstractMatcher::reset`, mirroring `struct Option`. -/
structure Opts where
  A : Bool
  N : Bool
  T : Nat
deriving DecidableEq, Repr

/-- C `isdigit` restricted to the ASCII digits, as used by the option parser. -/
def isDigitB (c : Char) : Bool := 48 ≤ c.toNat && c.toNat ≤ 57

/-- Option-string parse loop of `AbstractMatcher::reset` (lines 220-234 of the
source): a left-to-right scan; `A` and `N` set their flags; `T` advances the
scan by one position, or by two when the next character is `=`, and stores the
digit value found there, or 0 when the character there is not a digit; any
other character is skipped.  When the `T` case would advance onto or past the
terminating NUL the C loop afterwards reads past the terminator (undefined
behaviour); the model stops there with the same `T := 0` assignment. -/
def parseLoop : Opts → List Char → Opts
  | o, [] => o
  | o, c :: s =>
    if c = 'A' then parseLoop { o with A := true } s
    else if c = 'N' then parseLoop { o with N := true } s
    else if c = 'T' then
      match s with
      | [] => { o with T := 0 }
      | c1 :: s1 =>
        if c1 = '=' then
          match s1 with
          | [] => { o with T := 0 }
          | c2 :: s2 => parseLoop { o with T := if isDigitB c2 then c2.toNat - 48 else 0 } s2
        else parseLoop { o with T := if isDigitB c1 then c1.toNat - 48 else 0 } s1
    else parseLoop o s

/-- Full option parse of `reset(opt)` with non-NULL `opt`: defaults
`A = false`, `N = false`, `T = 8` are installed first, then the scan runs. -/
def parseOpts (l : List Char) : Opts := parseLoop ⟨false, false, 8⟩ l

/-- State of an `AbstractMatcher`: buffer memory plus every scalar field the
modelled member functions touch.  `mem` is the content of `buf_` as a function
from index to byte; `txt_` is the offset `txt_ - buf_`; `src` is the
remaining, not yet read, byte sequence of the input `in`. -/
structure S where
  mem  : Nat → Nat
  txt_ : Nat
  len_ : Nat
  cap_ : Nat
  cur_ : Nat
  pos_ : Nat
  end_ : Nat
  max_ : Nat
  ind_ : Nat
  blk_ : Nat
  got_ : Int
  chr_ : Int
  lno_ : Nat
  cno_ : Nat
  num_ : Nat
  eof_ : Bool
  mat_ : Bool
  opt_ : Opts
  src  : List Nat

/-- Single-byte store `m[i] = v`. -/
def setMem (m : Nat → Nat) (i v : Nat) : Nat → Nat :=
  fun j => if j = i then v else m j

/-- Effect of `memcpy(buf_ + base, bs, bs.length)`: the bytes `bs` overwrite
the region `[base, base + bs.length)`. -/
def writeBytes (m : Nat → Nat) (base : Nat) (bs : List Nat) : Nat → Nat :=
  fun i => if base ≤ i ∧ i < base + bs.length then bs.getD (i - base) 0 else m i

/-- Number of newline bytes among `f 0, …, f (n-1)`; this is the ascending
scan `for (s = buf_; s < txt_; ++s) n += (*s == '\n')` of `lineno` and the
newline counting of `update`. -/
def nlUpTo (f : Nat → Nat) : Nat → Nat
  | 0 => 0
  | n + 1 => nlUpTo f n + (if f n = 10 then 1 else 0)

/-- Index of the last newline strictly before position `n`, scanning downward
exactly like the loop `for (s = txt_ - 1; s >= buf_; --s)` of `columno`;
`none` when no newline occurs there. -/
def scanNl (f : Nat → Nat) : Nat → Option Nat
  | 0 => none
  | n + 1 => if f n = 10 then some n else scanNl f n

/-- Newline count in the length-`n` prefix of the full input, the
specification-side coordinate (positions beyond the input contribute 0). -/
def nlPre (l : List Nat) (n : Nat) : Nat := nlUpTo (fun i => l.getD i 0) n

/-- The private `AbstractMatcher::update`: walks `[buf_, txt_)`, bumping
`lno_` at each newline, remembering in `t` the position of the last newline
seen (not one past it) and zeroing `cno_` there, then adds `txt_ - t` to
`cno_` and `txt_ - buf_` to `num_`.  With `k` the last newline index this
leaves `cno_ = txt_ - k`; with no newline, `cno_ += txt_`. -/
def updateS (st : S) : S :=
  { st with
    lno_ := st.lno_ + nlUpTo st.mem st.txt_,
    cno_ := (match scanNl st.mem st.txt_ with
             | some k => st.txt_ - k
             | none => st.cno_ + st.txt_),
    num_ := st.num_ + st.txt_ }

/-- Fuelled form of the doubling loop of `grow`; structural recursion on the
fuel keeps the definition kernel-computable. -/
def doubleMaxF (fuel max newmax : Nat) : Nat :=
  match fuel with
  | 0 => max
  | fuel + 1 => if max < newmax then doubleMaxF fuel (2 * max) newmax else max

/-- The doubling loop `while (max_ < newmax) max_ *= 2` of `grow`.  With
`max ≥ 1` the loop doubles at most `newmax` times before `max < newmax`
fails, so fuel `newmax` never runs out and this equals the C loop; the source
relies on `max_ ≥ 1` (capacity starts at `2*BLOCK` and only doubles), and for
`max = 0` the C loop never terminates. -/
def doubleMax (max newmax : Nat) : Nat := doubleMaxF newmax max newmax

/-- `AbstractMatcher::grow(need)` (source lines 606-643).  Returns `false`
without changes when `max_ - end_ ≥ need` already.  Otherwise, with
`gap = txt_ - buf_`: when `gap ≥ need`, `update()` runs, `gap` is subtracted
from `cur_`, `ind_`, `pos_`, `end_`, and `memmove(buf_, txt_, end_)` (with the
already decremented `end_`) closes the gap.  Otherwise the capacity is doubled
while below `end_ - gap + need`; only when it actually changed does the same
shift run into a freshly allocated region (fresh bytes modelled as 0). -/
def growS (need : Nat) (st : S) : Bool × S :=
  if st.max_ - st.end_ ≥ need then (false, st)
  else
    let gap := st.txt_
    if gap ≥ need then
      let s1 := updateS st
      (true, { s1 with
        cur_ := s1.cur_ - gap, ind_ := s1.ind_ - gap,
        pos_ := s1.pos_ - gap, end_ := s1.end_ - gap,
        mem := fun i => if i < s1.end_ - gap then s1.mem (gap + i) else s1.mem i,
        txt_ := 0 })
    else
      let newmax := st.end_ - gap + need
      let oldmax := st.max_
      let m2 := doubleMax st.max_ newmax
      if oldmax < m2 then
        let s1 := updateS st
        (true, { s1 with
          max_ := m2,
          cur_ := s1.cur_ - gap, ind_ := s1.ind_ - gap,
          pos_ := s1.pos_ - gap, end_ := s1.end_ - gap,
          mem := fun i => if i < s1.end_ - gap then s1.mem (gap + i) else 0,
          txt_ := 0 })
      else (true, { st with max_ := m2 })

/-- `AbstractMatcher::reset(opt)` (source lines 210-253).  The option block
runs only when `opt` is non-NULL; then `buf_[0] = '\0'` and the buffer,
match-state and tracker fields are reinitialized.  `max_`, the allocation and
the input source are not touched. -/
def resetS (opt : Option (List Char)) (st : S) : S :=
  { st with
    opt_ := (match opt with
             | some l => parseOpts l
             | none => st.opt_),
    mem := setMem st.mem 0 0,
    txt_ := 0, len_ := 0, cap_ := 0, cur_ := 0, pos_ := 0, end_ := 0,
    ind_ := 0, lno_ := 1, cno_ := 0, num_ := 0,
    got_ := BOB, chr_ := UNK, eof_ := false, mat_ := false, blk_ := 0 }

/-- One call `in.get(buf_ + end_, n)`: up to `n` bytes move from the source
into the buffer at `end_`; the count moved is returned (0 signals EOF). -/
def readSrc (st : S) (n : Nat) : Nat × S :=
  let k := min n st.src.length
  (k, { st with mem := writeBytes st.mem st.end_ (st.src.take k), src := st.src.drop k })

/-- `AbstractMatcher::peek` (source lines 670-691).  Returns `buf_[pos_]`
when buffered bytes remain, EOF when `eof_` is set; otherwise grows when full
and refills once.  The base-class `wrap()` returns `false`, so the
`while (true)` loop runs exactly one iteration: either the refill makes
`pos_ < end_` and the byte is returned, or `eof_` is set and EOF returned. -/
def peekS (st : S) : Int × S :=
  if st.pos_ < st.end_ then (((st.mem st.pos_ % 256 : Nat) : Int), st)
  else if st.eof_ then (-1, st)
  else
    let st1 := if st.end_ = st.max_ then (growS BLOCK st).2 else st
    let n := if st1.blk_ ≠ 0 then st1.blk_ else st1.max_ - st1.end_
    match readSrc st1 n with
    | (k, st2) =>
      let st3 := { st2 with end_ := st2.end_ + k }
      if st3.pos_ < st3.end_ then (((st3.mem st3.pos_ % 256 : Nat) : Int), st3)
      else (-1, { st3 with eof_ := true })

/-- The protected `AbstractMatcher::get()` (source lines 646-667): as `peek`,
but consumes the byte (`buf_[pos_++]`). -/
def getcS (st : S) : Int × S :=
  if st.pos_ < st.end_ then
    (((st.mem st.pos_ % 256 : Nat) : Int), { st with pos_ := st.pos_ + 1 })
  else if st.eof_ then (-1, st)
  else
    let st1 := if st.end_ = st.max_ then (growS BLOCK st).2 else st
    let n := if st1.blk_ ≠ 0 then st1.blk_ else st1.max_ - st1.end_
    match readSrc st1 n with
    | (k, st2) =>
      let st3 := { st2 with end_ := st2.end_ + k }
      if st3.pos_ < st3.end_ then
        (((st3.mem st3.pos_ % 256 : Nat) : Int), { st3 with pos_ := st3.pos_ + 1 })
      else (-1, { st3 with eof_ := true })

/-- `AbstractMatcher::unput(c)` (source lines 419-439).  First
`buf_[pos_] = chr_` restores the held byte when `pos_ < end_` (the int `chr_`
truncates to a byte in the char store).  Then either `pos_` steps back, or at
`pos_ == 0` the match is invalidated (`txt_ = buf_`, `len_ = 0`), the buffer
grows when full and `memmove(buf_ + 1, buf_, end_)` shifts the occupied bytes
right by one.  Finally `chr_` caches `c` and `cur_ = pos_`.  The byte `c` is
written only into `chr_`, never into `buf_`. -/
def unputS (c : Nat) (st : S) : S :=
  let st0 := if st.pos_ < st.end_ then
               { st with mem := setMem st.mem st.pos_ ((st.chr_ % 256).toNat) }
             else st
  let st1 :=
    if st0.pos_ > 0 then { st0 with pos_ := st0.pos_ - 1 }
    else
      let sa := { st0 with txt_ := 0, len_ := 0 }
      let sb := if sa.end_ = sa.max_ then (growS BLOCK sa).2 else sa
      { sb with
        mem := fun i => if 1 ≤ i ∧ i ≤ sb.end_ then sb.mem (i - 1) else sb.mem i,
        end_ := sb.end_ + 1 }
  { st1 with chr_ := ((c % 256 : Nat) : Int), cur_ := st1.pos_ }

/-- `AbstractMatcher::set_current(loc)` (source lines 692-705):
`pos_ = cur_ = loc`; `got_` becomes `buf_[loc-1]` when `loc > 0` and the UNK
sentinel otherwise; `chr_` becomes `buf_[loc]` when `loc < end_` and UNK
otherwise. -/
def set_currentS (loc : Nat) (st : S) : S :=
  { st with
    pos_ := loc, cur_ := loc,
    got_ := if loc > 0 then ((st.mem (loc - 1) % 256 : Nat) : Int) else UNK,
    chr_ := if loc < st.end_ then ((st.mem loc % 256 : Nat) : Int) else UNK }

/-- `AbstractMatcher::lineno` (source lines 326-332): `lno_` plus the
newlines in `[buf_, txt_)`. -/
def linenoS (st : S) : Nat := st.lno_ + nlUpTo st.mem st.txt_

/-- `AbstractMatcher::columno` (source lines 335-341): scan from `txt_ - 1`
down to `buf_`; at the first newline found, at index `k`, return
`txt_ - k - 1`; otherwise return `cno_ + (txt_ - buf_)`. -/
def columnoS (st : S) : Nat :=
  match scanNl st.mem st.txt_ with
  | some k => st.txt_ - k - 1
  | none => st.cno_ + st.txt_

/-- `AbstractMatcher::first` (source lines 350-353): `num_ + (txt_ - buf_)`. -/
def firstS (st : S) : Nat := st.num_ + st.txt_

/-- `AbstractMatcher::at_bob` (source lines 362-365): `got_ == Const::BOB`. -/
def at_bobS (st : S) : Prop := st.got_ = BOB

/-- `AbstractMatcher::at_end` (source lines 368-371):
`pos_ == end_ && (eof_ || peek() == EOF)`, with the `peek` call (and its state
effects) short-circuited away when `eof_` already holds. -/
def at_endS (st : S) : Bool × S :=
  if st.pos_ = st.end_ then
    if st.eof_ then (true, st)
    else
      match peekS st with
      | (c, st1) => (c = -1, st1)
  else (false, st)

/-- `AbstractMatcher::matches` (source lines 300-305), parametric in the
engine primitive `f` (the pure virtual `match`, invoked with
`Const::MATCH`): when `mat_ == 0 && at_bob()`, run
`mat_ = match(Const::MATCH) && at_end()` with C short-circuit `&&`; return
`mat_` as a `size_t` (so 1 when true). -/
def matchesS (f : Nat → S → Nat × S) (st : S) : Nat × S :=
  if st.mat_ = false ∧ st.got_ = BOB then
    match f mMATCH st with
    | (r, s1) =>
      if r = 0 then (0, { s1 with mat_ := false })
      else
        match at_endS s1 with
        | (b, s2) => ((if b then 1 else 0), { s2 with mat_ := b })
  else ((if st.mat_ then 1 else 0), st)

/-- Abstract pattern-matching engine behind an `AbstractMatcher`: the
overridable `reset` and the pure virtual `match(method)` primitive of a
concrete subclass, acting on an engine state of type `σ`. -/
structure IterM (σ : Type) where
  resetF : σ → σ
  matchF : Nat → σ → Nat × σ

/-- An `AbstractMatcher::Iterator`: the field `m` models the pointer
`matcher_` (`none` is NULL, the end-sentinel; `some i` the identity of the
referenced matcher), and `method` models `method_`. -/
structure Iter where
  m : Option Nat
  method : Nat
deriving DecidableEq

/-- Iterator equality `operator==` (source lines 114-117): compares only the
`matcher_` pointers, never the methods. -/
def iterEq (a b : Iter) : Prop := a.m = b.m

/-- The constructor `Iterator(matcher, method)` (source lines 141-154): with
a non-NULL matcher it resets the matcher, performs the first match, and nulls
the pointer when that match returns 0; with NULL it is the end-sentinel. -/
def mkIter {σ : Type} (sys : IterM σ) (mid : Option Nat) (meth : Nat) (st : σ) : Iter × σ :=
  match mid with
  | none => (⟨none, meth⟩, st)
  | some i =>
    let s1 := sys.resetF st
    match sys.matchF meth s1 with
    | (r, s2) => (⟨if r = 0 then none else some i, meth⟩, s2)

/-- The preincrement `operator++` (source lines 126-131): invokes
`matcher_->match(method_)` and nulls the pointer on a zero result.  On the
end-sentinel the source would dereference NULL; it is never invoked there,
and the model leaves the sentinel unchanged. -/
def iterInc {σ : Type} (sys : IterM σ) (it : Iter) (st : σ) : Iter × σ :=
  match it.m with
  | some _ =>
    (match sys.matchF it.method st with
     | (r, s1) => (⟨if r = 0 then none else it.m, it.method⟩, s1))
  | none => (it, st)

/-- A freshly initialized matcher state as left by `init`: zeroed buffer
memory, capacity `2*BLOCK`, all counters as `reset()` leaves them, and the
two-byte source `"bc"` used by scenario E5. -/
def st0 : S :=
  { mem := fun _ => 0, txt_ := 0, len_ := 0, cap_ := 0, cur_ := 0, pos_ := 0,
    end_ := 0, max_ := 8192, ind_ := 0, blk_ := 0, got_ := BOB, chr_ := UNK,
    lno_ := 1, cno_ := 0, num_ := 0, eof_ := false, mat_ := false,
    opt_ := ⟨false, false, 8⟩, src := [98, 99] }

/-- Input bytes `"a\nb"` used by the line/column scenarios. -/
def inputW : List Nat := [97, 10, 98]

/-- Matcher state whose window holds the whole input `"a\nb"` with the
current match starting at the `'b'` (window offset 2, absolute offset 2). -/
def stBuf : S :=
  { st0 with mem := fun i => [97, 10, 98].getD i 0, end_ := 3, txt_ := 2,
             pos_ := 3, cur_ := 3, len_ := 1, src := [] }

/-- Matcher state for the `grow` failing input: capacity 16, occupancy 10,
match start at offset 5 (so the gap before `txt_` is 5 bytes). -/
def stG : S := { st0 with max_ := 16, end_ := 10, txt_ := 5, pos_ := 10, cur_ := 10 }

/-- Scenario E5 state: `reset()` on the two-byte source `"bc"`, then
`unput('a')`. -/
def stE5 : S := unputS 97 (resetS none st0)

/-- A state that already consumed one byte `'a'` (so `got_ = 97 ≠ BOB`) with
no memoized whole-input match. -/
def stNB : S := { st0 with got_ := 97, pos_ := 1, cur_ := 1, end_ := 1 }

/-- Engine primitive for the memo scenario: accepts (capture index 1) and
leaves the matcher at end of input with `eof_` set. -/
def fW : Nat → S → Nat × S := fun _ s => (1, { s with pos_ := s.end_, eof_ := true })

/-- Engine primitive that always rejects; a memoized second call must return
the same success even under this engine. -/
def gW : Nat → S → Nat × S := fun _ s => (0, s)

/-- Consistency of a matcher state with the full input byte sequence: the
window `[0, end_)` holds the input bytes starting at absolute offset `num_`,
`lno_` is 1 plus the newlines in the dropped prefix of length `num_`, and the
match start lies inside the window. -/
def WFline (input : List Nat) (st : S) : Prop :=
  (∀ i, i < st.end_ → st.mem i = input.getD (st.num_ + i) 0) ∧
  st.lno_ = 1 + nlPre input st.num_ ∧
  st.txt_ ≤ st.end_

/-- Claim C1, failing-input evaluation.  The claim states that after any call
`grow(need)` the buffer has `capacity - end ≥ need` free bytes.  In the state
`max_ = 16`, `end_ = 10`, `txt_ - buf_ = 5` (gap 5), the call `grow(10)`
enters neither the shift branch (`gap = 5 < need = 10`) nor the reallocation
branch (the doubling target `newmax = end_ - gap + need = 15` is already at
most `max_ = 16`, so `oldmax < max_` fails): it returns `true` yet leaves
only `max_ - end_ = 6 < 10` free bytes. -/
theorem grow_underprovision :
    (growS 10 stG).1 = true ∧ (growS 10 stG).2.max_ - (growS 10 stG).2.end_ < 10 :=
  ⟨by decide, by decide⟩

/-- Claim C2, failing-input evaluation of scenario E5.  After `reset()` with
source `"bc"` and `unput('a')`, the pushed-back byte lives only in the held
char `chr_`; `peek()` and `get()` read `buf_[pos_]` directly and return the
NUL written by `reset` instead of `'a'` (97), and the subsequent reads give
`'b'`, `'c'`, EOF, so the byte `'a'` is lost. -/
theorem unput_byte_lost :
    (peekS stE5).1 = 0 ∧ (peekS stE5).1 ≠ 97 ∧
    (getcS stE5).1 = 0 ∧
    (getcS (getcS stE5).2).1 = 98 ∧
    (getcS (getcS (getcS stE5).2).2).1 = 99 ∧
    (getcS (getcS (getcS (getcS stE5).2).2).2).1 = -1 :=
  ⟨by decide, by decide, by decide, by decide, by decide, by decide⟩

/-- Claim C3, counterexample.  In a state whose window starts at absolute
input offset 0 (`num_ = 0`), `set_current(0)` sets `got_` to the UNK
sentinel (256), not to BOB (257) as the claim states. -/
theorem set_current_zero_cex :
    stBuf.num_ = 0 ∧ (set_currentS 0 stBuf).got_ ≠ BOB :=
  ⟨rfl, by decide⟩

/-- Claim C3 (amended): for `loc ≤ end_`, `set_current(loc)` sets `pos_` and
`cur_` to `loc`, sets `got_` to `buf_[loc-1]` when `loc > 0` and to the UNK
sentinel when `loc == 0`; consequently `got_` never equals BOB after
`set_current`, whatever the absolute offset. -/
theorem set_current_amended (st : S) (loc : Nat) (_hloc : loc ≤ st.end_) :
    (set_currentS loc st).pos_ = loc ∧ (set_currentS loc st).cur_ = loc ∧
    (0 < loc → (set_currentS loc st).got_ = ((st.mem (loc - 1) % 256 : Nat) : Int)) ∧
    (loc = 0 → (set_currentS loc st).got_ = UNK) ∧
    (set_currentS loc st).got_ ≠ BOB := by
  refine ⟨rfl, rfl, ?_, ?_, ?_⟩
  · intro h
    simp [set_currentS, h]
  · intro h
    simp [set_currentS, h]
  · simp only [set_currentS]
    split
    · have h : st.mem (loc - 1) % 256 < 256 := Nat.mod_lt _ (by norm_num)
      simp only [BOB]
      omega
    · simp [UNK, BOB]

/-- Claim C3, witness for the amended theorem at `loc = 0` in `stBuf`. -/
theorem set_current_amended_w :
    (0 : Nat) ≤ stBuf.end_ ∧ (set_currentS 0 stBuf).got_ = UNK :=
  ⟨by decide, (set_current_amended stBuf 0 (by decide)).2.2.2.1 rfl⟩

/-- Claim C4, counterexample.  The claim states that a malformed `T`
occurrence — no digit following, or a digit outside 1..9 — is ignored and
the tab width keeps its default 8; but `reset("Tx")`, `reset("T=x")` and
`reset("T0")` all store 0 into `opt_.T` (the parser writes
`isdigit(...) ? *s - '0' : 0`). -/
theorem optT_malformed_cex :
    (resetS (some ['T', 'x']) st0).opt_.T ≠ 8 ∧
    (resetS (some ['T', 'x']) st0).opt_.T = 0 ∧
    (resetS (some ['T', '=', 'x']) st0).opt_.T ≠ 8 ∧
    (resetS (some ['T', '=', 'x']) st0).opt_.T = 0 ∧
    (resetS (some ['T', '0']) st0).opt_.T ≠ 8 ∧
    (resetS (some ['T', '0']) st0).opt_.T = 0 :=
  ⟨by decide, by decide, by decide, by decide, by decide, by decide⟩

/-- Claim C4 (amended): a `T` occurrence followed by `=d` or `d` with a
digit `d` sets the tab width to the digit's value (so `d` in 1..9 gives `d`,
as the claim states, and the digit `'0'` gives 0); a malformed occurrence —
the character after the optional `=` is not a digit — sets the tab width to
0: it is not ignored and the default 8 is not retained.  The first conjunct
covers `T=d`, the second `T=` followed by a non-digit, the third `Td` and
`Tc` for any character other than `=` (a `=` there is the optional marker
and is covered by the first two). -/
theorem optT_amended :
    ∀ (o : Opts) (d c : Char) (rest : List Char),
      (isDigitB d = true →
        parseLoop o ('T' :: '=' :: d :: rest) = parseLoop { o with T := d.toNat - 48 } rest ∧
        parseLoop o ('T' :: d :: rest) = parseLoop { o with T := d.toNat - 48 } rest) ∧
      (isDigitB c = false →
        parseLoop o ('T' :: '=' :: c :: rest) = parseLoop { o with T := 0 } rest ∧
        (c ≠ '=' →
          parseLoop o ('T' :: c :: rest) = parseLoop { o with T := 0 } rest)) := by
  intro o d c rest
  constructor
  · intro hd
    have hdne : d ≠ '=' := by
      intro h
      rw [h] at hd
      exact absurd hd (by decide)
    constructor
    · simp [parseLoop, hd]
    · rw [parseLoop.eq_def]
      simp [hdne, hd]
  · intro hc
    constructor
    · simp [parseLoop, hc]
    · intro hcne
      rw [parseLoop.eq_def]
      simp [hcne, hc]

/-- Claim C4, witness for the amended theorem: `T=5` at the end of an option
string sets the tab width to 5, `T5` likewise, and `T=x`, `Tx` and `T0` set
it to 0. -/
theorem optT_amended_w :
    isDigitB '5' = true ∧
    parseLoop ⟨false, false, 8⟩ ['T', '=', '5'] = parseLoop ⟨false, false, 5⟩ [] ∧
    parseLoop ⟨false, false, 8⟩ ['T', '5'] = parseLoop ⟨false, false, 5⟩ [] ∧
    parseLoop ⟨false, false, 8⟩ ['T', '=', 'x'] = parseLoop ⟨false, false, 0⟩ [] ∧
    parseLoop ⟨false, false, 8⟩ ['T', 'x'] = parseLoop ⟨false, false, 0⟩ [] ∧
    parseLoop ⟨false, false, 8⟩ ['T', '0'] = parseLoop ⟨false, false, 0⟩ [] := by
  refine ⟨by decide, ?_, ?_, ?_, ?_, ?_⟩
  · exact ((optT_amended ⟨false, false, 8⟩ '5' 'x' []).1 (by decide)).1
  · exact ((optT_amended ⟨false, false, 8⟩ '5' 'x' []).1 (by decide)).2
  · exact ((optT_amended ⟨false, false, 8⟩ '5' 'x' []).2 (by decide)).1
  · exact ((optT_amended ⟨false, false, 8⟩ '5' 'x' []).2 (by decide)).2 (by decide)
  · exact ((optT_amended ⟨false, false, 8⟩ '0' 'x' []).1 (by decide)).2

/-- Claim C9: `reset()` with the option string omitted (NULL) reinitializes
the buffer content sentinel, the match state and the position tracker, and
leaves the parsed options — and the capacity, allocation and input source,
absent from the update — unchanged; only `reset(opt)` with a non-NULL string
reassigns the options, to the parse of that string over the defaults. -/
theorem reset_frame :
    ∀ st : S,
      resetS none st =
        { st with
          mem := setMem st.mem 0 0, txt_ := 0, len_ := 0, cap_ := 0,
          cur_ := 0, pos_ := 0, end_ := 0, ind_ := 0, lno_ := 1, cno_ := 0,
          num_ := 0, got_ := BOB, chr_ := UNK, eof_ := false, mat_ := false,
          blk_ := 0 } ∧
      (resetS none st).opt_ = st.opt_ ∧
      ∀ l, resetS (some l) st = { resetS none st with opt_ := parseOpts l } :=
  fun _ => ⟨rfl, rfl, fun _ => rfl⟩

/-- Claim C10: with no memoized success (`mat_ == 0`) and the matcher not at
begin of buffer (`got_ ≠ BOB`), `matches()` returns 0 and leaves the state —
including the source — untouched, for every engine primitive `f`, so the
engine is not invoked and nothing is read. -/
theorem matches_skip_engine (f : Nat → S → Nat × S) (st : S)
    (hmat : st.mat_ = false) (hbob : st.got_ ≠ BOB) :
    matchesS f st = (0, st) := by
  unfold matchesS
  rw [if_neg (by exact fun h => hbob h.2)]
  simp [hmat]

/-- Claim C10, witness: a state that consumed input (`got_ = 'a'`) with no
memo; `matches()` returns 0 unchanged under an engine that would accept. -/
theorem matches_skip_engine_w :
    stNB.mat_ = false ∧ stNB.got_ ≠ BOB ∧
    matchesS (fun _ s => (1, s)) stNB = (0, stNB) :=
  ⟨rfl, by decide, matches_skip_engine (fun _ s => (1, s)) stNB rfl (by decide)⟩

/-- Claim C5: constructing an iterator on a matcher resets it and performs
the first match (the resulting engine state is exactly the one after
`reset` and `match(method)`), yielding the end-sentinel iff that match
returned 0; an increment of a non-end iterator invokes `match` again and
yields the end-sentinel iff the result is 0; and two iterators compare equal
iff both are end-sentinels or both reference the same matcher, their methods
playing no part. -/
theorem iterator_semantics :
    ∀ (σ : Type) (sys : IterM σ) (st : σ) (i meth : Nat) (a b : Iter),
      ((mkIter sys (some i) meth st).1.m = none ↔
        (sys.matchF meth (sys.resetF st)).1 = 0) ∧
      (mkIter sys (some i) meth st).2 = (sys.matchF meth (sys.resetF st)).2 ∧
      ((iterInc sys ⟨some i, meth⟩ st).1.m = none ↔ (sys.matchF meth st).1 = 0) ∧
      (iterInc sys ⟨some i, meth⟩ st).2 = (sys.matchF meth st).2 ∧
      (iterEq a b ↔ (a.m = none ∧ b.m = none) ∨ ∃ k, a.m = some k ∧ b.m = some k) := by
  intro σ sys st i meth a b
  refine ⟨?_, ?_, ?_, ?_, ?_⟩
  · rcases h : sys.matchF meth (sys.resetF st) with ⟨r, s2⟩
    by_cases hr : r = 0 <;> simp [mkIter, h, hr]
  · rcases h : sys.matchF meth (sys.resetF st) with ⟨r, s2⟩
    by_cases hr : r = 0 <;> simp [mkIter, h, hr]
  · rcases h : sys.matchF meth st with ⟨r, s1⟩
    by_cases hr : r = 0 <;> simp [iterInc, h, hr]
  · rcases h : sys.matchF meth st with ⟨r, s1⟩
    by_cases hr : r = 0 <;> simp [iterInc, h, hr]
  · cases ham : a.m <;> cases hbm : b.m <;> simp [iterEq, ham, hbm]
    exact eq_comm

/-- Claim C6: if a call to `matches()` returns nonzero, then `matches()` on
the resulting state returns the same value and the identical state — source
included, so nothing is read — for every engine primitive `g`, so the second
call does not depend on the engine at all. -/
theorem matches_memo (f : Nat → S → Nat × S) (st : S)
    (h : (matchesS f st).1 ≠ 0) :
    ∀ g, matchesS g (matchesS f st).2 = matchesS f st := by
  intro g
  by_cases hg : st.mat_ = false ∧ st.got_ = BOB
  · rcases hm : f mMATCH st with ⟨r, s1⟩
    by_cases hr : r = 0
    · exfalso
      apply h
      simp [matchesS, hg, hm, hr]
    · rcases he : at_endS s1 with ⟨b, s2⟩
      have hval : matchesS f st = ((if b then 1 else 0), { s2 with mat_ := b }) := by
        simp [matchesS, hg, hm, hr, he]
      cases b with
      | false =>
        exfalso
        apply h
        simp [hval]
      | true =>
        rw [hval]
        simp [matchesS]
  · have hval : matchesS f st = ((if st.mat_ then 1 else 0), st) := by
      simp [matchesS, hg]
    cases hmat : st.mat_ with
    | false =>
      exfalso
      apply h
      rw [hval, hmat]
      simp
    | true =>
      rw [hval, hmat]
      simp [matchesS, hmat]

/-- Claim C6, witness: a begin-of-buffer state where the engine accepts and
consumes everything; the first `matches()` returns 1, and the second — run
with an engine that always rejects — returns the same result and state. -/
theorem matches_memo_w :
    (matchesS fW st0).1 ≠ 0 ∧
    matchesS gW (matchesS fW st0).2 = matchesS fW st0 :=
  ⟨by decide, matches_memo fW st0 (by decide) gW⟩

/-- Pointwise agreement below `n` makes the downward newline scans agree. -/
theorem scanNl_congr (f g : Nat → Nat) (n : Nat) (h : ∀ i, i < n → f i = g i) :
    scanNl f n = scanNl g n := by
  induction n with
  | zero => rfl
  | succ k ih =>
    have hk := h k (by omega)
    show (if f k = 10 then some k else scanNl f k)
        = (if g k = 10 then some k else scanNl g k)
    rw [hk]
    split_ifs with hg
    · rfl
    · exact ih (fun i hi => h i (by omega))

/-- Splitting a prefix newline count at `base`: when `f` agrees with the
input bytes at offsets `base + i` for `i < n`, counting to `base + n` equals
counting to `base` plus the window count of `f`. -/
theorem nlPre_split (l : List Nat) (f : Nat → Nat) (base n : Nat)
    (h : ∀ i, i < n → f i = l.getD (base + i) 0) :
    nlPre l (base + n) = nlPre l base + nlUpTo f n := by
  induction n with
  | zero => simp [nlUpTo]
  | succ k ih =>
    have ihk := ih (fun i hi => h i (by omega))
    have hk := h k (by omega)
    have e1 : base + (k + 1) = (base + k) + 1 := by omega
    calc nlPre l (base + (k + 1))
        = nlPre l (base + k) + (if l.getD (base + k) 0 = 10 then 1 else 0) := by
          rw [e1]; rfl
      _ = (nlPre l base + nlUpTo f k) + (if f k = 10 then 1 else 0) := by
          rw [ihk, hk]
      _ = nlPre l base + nlUpTo f (k + 1) := by
          rw [show nlUpTo f (k + 1) = nlUpTo f k + (if f k = 10 then 1 else 0) from rfl]
          omega

/-- Claim C7: in every state consistent with the input (`WFline`), `lineno()`
equals 1 plus the newline count of the absolute input prefix of length
`first()`, and this persists across `grow` — both the shift that closes the
gap and the reallocation drop the prefix `[0, txt_)` of the window while
`update` absorbs its newlines into `lno_` — with `first()` itself unchanged. -/
theorem lineno_abs (input : List Nat) (st : S) (h : WFline input st) :
    linenoS st = 1 + nlPre input (firstS st) ∧
    ∀ need, WFline input (growS need st).2 ∧
      linenoS (growS need st).2 = linenoS st ∧
      firstS (growS need st).2 = firstS st := by
  obtain ⟨hmem, hlno, htxt⟩ := h
  have key : nlPre input (st.num_ + st.txt_) = nlPre input st.num_ + nlUpTo st.mem st.txt_ :=
    nlPre_split input st.mem st.num_ st.txt_ (fun i hi => hmem i (lt_of_lt_of_le hi htxt))
  have hmain : linenoS st = 1 + nlPre input (firstS st) := by
    unfold linenoS firstS
    rw [hlno, key]
    omega
  refine ⟨hmain, fun need => ?_⟩
  unfold growS
  dsimp only
  split_ifs with h1 h2 h3
  · exact ⟨⟨hmem, hlno, htxt⟩, rfl, rfl⟩
  · refine ⟨⟨?_, ?_, ?_⟩, ?_, ?_⟩
    · intro i hi
      dsimp only [updateS] at *
      rw [if_pos hi, hmem (st.txt_ + i) (by omega)]
      congr 1
      omega
    · dsimp only [updateS]
      rw [hlno, key]
      omega
    · exact Nat.zero_le _
    · dsimp only [linenoS, updateS]
      rw [show nlUpTo (fun i => if i < st.end_ - st.txt_ then st.mem (st.txt_ + i)
            else st.mem i) 0 = 0 from rfl]
      omega
    · dsimp only [firstS, updateS]
      omega
  · refine ⟨⟨?_, ?_, ?_⟩, ?_, ?_⟩
    · intro i hi
      dsimp only [updateS] at *
      rw [if_pos hi, hmem (st.txt_ + i) (by omega)]
      congr 1
      omega
    · dsimp only [updateS]
      rw [hlno, key]
      omega
    · exact Nat.zero_le _
    · dsimp only [linenoS, updateS]
      rw [show nlUpTo (fun i => if i < st.end_ - st.txt_ then st.mem (st.txt_ + i)
            else 0) 0 = 0 from rfl]
      omega
    · dsimp only [firstS, updateS]
      omega
  · exact ⟨⟨hmem, hlno, htxt⟩, rfl, rfl⟩

/-- Claim C7, witness: the window `"a\nb"` at absolute offset 0 with the
match starting at the `'b'`; `lineno()` is 2 = 1 + one newline before
`first() = 2`. -/
theorem lineno_abs_w :
    WFline inputW stBuf ∧ linenoS stBuf = 1 + nlPre inputW (firstS stBuf) := by
  have hwf : WFline inputW stBuf := by
    refine ⟨?_, ?_, ?_⟩
    · decide
    · decide
    · decide
  exact ⟨hwf, (lineno_abs inputW stBuf hwf).1⟩

/-- Claim C8, counterexample.  Input `"a\nb"`, match starting at the `'b'`
(`first() = 2`, previous newline at absolute offset 1): the claim gives
`columno() = first() - 1 = 1`, but the code scans back to the newline at
index `k` and returns `txt_ - k - 1`, here 0. -/
theorem columno_cex :
    scanNl (fun i => inputW.getD i 0) (firstS stBuf) = some 1 ∧
    columnoS stBuf = 0 ∧
    columnoS stBuf ≠ firstS stBuf - 1 :=
  ⟨by decide, by decide, by decide⟩

/-- Claim C8 (amended): for a state whose window starts at absolute offset 0
(`num_ = 0`, `cno_ = 0`, no shift has happened), `columno()` equals
`first() - p - 1` where `p` is the absolute offset of the previous newline
(one less than the claimed `first() - p`), and equals `first() - 0` when no
previous newline exists.  After a shift that drops a newline the walk-back
falls through to `cno_`, which `update` leaves one byte too large, so no
uniform absolute-input formula covers shifted windows. -/
theorem columno_amended (input : List Nat) (st : S)
    (hmem : ∀ i, i < st.end_ → st.mem i = input.getD i 0)
    (htxt : st.txt_ ≤ st.end_) (hnum : st.num_ = 0) (hcno : st.cno_ = 0) :
    columnoS st = (match scanNl (fun i => input.getD i 0) (firstS st) with
                   | some p => firstS st - p - 1
                   | none => firstS st) := by
  have hfirst : firstS st = st.txt_ := by
    unfold firstS
    omega
  have hscan : scanNl st.mem st.txt_ = scanNl (fun i => input.getD i 0) st.txt_ :=
    scanNl_congr st.mem _ st.txt_ (fun i hi => hmem i (lt_of_lt_of_le hi htxt))
  rw [hfirst]
  unfold columnoS
  rw [hscan]
  rcases hs : scanNl (fun i => input.getD i 0) st.txt_ with _ | k <;> simp [hs, hcno]

/-- Claim C8, witness for the amended theorem on the window `"a\nb"` with
the match at the `'b'`: the previous newline sits at offset 1 and
`columno() = 2 - 1 - 1 = 0`. -/
theorem columno_amended_w :
    stBuf.num_ = 0 ∧
    columnoS stBuf = (match scanNl (fun i => inputW.getD i 0) (firstS stBuf) with
                      | some p => firstS stBuf - p - 1
                      | none => firstS stBuf) :=
  ⟨rfl, columno_amended inputW stBuf (by decide) (by decide) rfl rfl⟩
